import Mathlib

/-!
Verification of the `web-glitz-buffer-vec` crate: a growable GPU-resident
buffer abstraction. The development shallowly embeds the crate's capacity
planner (`src/util.rs`), and the state evolution of `BufferVec`
(`src/buffer_vec.rs`) and `IndexBufferVec` (`src/index_buffer_vec.rs`).

Machine integers (`usize`) are modelled as unbounded `Nat`; the one place
where wrap-around matters (the doubling loop's overflow behaviour) is
modelled separately with an explicit `% 2 ^ 64` and a fuel parameter.
-/

namespace WebGlitzBufferVec

/-- The `while new_capacity < required_capacity { new_capacity = new_capacity * 2 }`
loop of `new_capacity_amortized` in `src/util.rs`. The loop only terminates for a
positive starting value (its single call site always passes one), so the
embedding carries that fact as a hypothesis. -/
def growLoop (required : Nat) (v : Nat) (hv : 0 < v) : Nat :=
  if h : v < required then growLoop required (v * 2) (by omega) else v
termination_by required - v
decreasing_by omega

/-- `new_capacity_amortized` from `src/util.rs`: if `current_capacity <
required_capacity`, seed at `current_capacity` (or 2 when that is 0), double
until `≥ required_capacity`, and return `Some` of the result; otherwise `None`. -/
def new_capacity_amortized (current_capacity required_capacity : Nat) : Option Nat :=
  if current_capacity < required_capacity then
    if h : current_capacity = 0 then
      some (growLoop required_capacity 2 (by omega))
    else
      some (growLoop required_capacity current_capacity (Nat.pos_of_ne_zero h))
  else
    none

/-- Observable state shared by the Rust structs `BufferVec<Rc, T>` and
`IndexBufferVec<Rc, T>`: both hold a context handle (external, no observable
state of its own, omitted), a CPU-side `len`, and an owned device buffer. The
buffer handle is abstracted by its element count (`buffer.len()`, the
capacity), an allocation identity (`alloc`, incremented whenever a fresh
device buffer replaces the old handle), and its opaque usage hint. The
uploaded byte content lives on the device and is not modelled. -/
structure VecState where
  len : Nat
  capacity : Nat
  alloc : Nat
  usage : Nat
deriving DecidableEq

/-- `BufferVec::new` (`src/buffer_vec.rs`): a zero-length buffer is created
via `create_buffer_slice_uninit(0, usage)` and `len` starts at 0. -/
def BufferVec.new (usage : Nat) : VecState :=
  { len := 0, capacity := 0, alloc := 0, usage := usage }

/-- `BufferVec::with_capacity` (`src/buffer_vec.rs`): a buffer of exactly
`capacity` elements is created and `len` starts at 0. -/
def BufferVec.with_capacity (usage capacity : Nat) : VecState :=
  { len := 0, capacity := capacity, alloc := 0, usage := usage }

/-- `BufferVec::update` (`src/buffer_vec.rs`): sets `len` to the data length,
consults `new_capacity_amortized(buffer.len(), len)`; on `Some(new_capacity)`
replaces the buffer handle with a freshly created one of that capacity (same
usage hint) and records `reallocated = true`, otherwise keeps the handle and
records `false`. The subsequent upload writes data content, which this state
model does not track. Returns the new state and the `reallocated` flag. -/
def BufferVec.update (s : VecState) (dataLen : Nat) : VecState × Bool :=
  match new_capacity_amortized s.capacity dataLen with
  | some new_capacity =>
      ({ len := dataLen, capacity := new_capacity, alloc := s.alloc + 1,
         usage := s.usage }, true)
  | none => ({ s with len := dataLen }, false)

/-- `BufferVec::capacity` (`src/buffer_vec.rs`): `self.buffer.len()`. -/
def BufferVec.capacity (s : VecState) : Nat := s.capacity

/-- `IndexBufferVec::new` (`src/index_buffer_vec.rs`). -/
def IndexBufferVec.new (usage : Nat) : VecState :=
  { len := 0, capacity := 0, alloc := 0, usage := usage }

/-- `IndexBufferVec::with_capacity` (`src/index_buffer_vec.rs`). -/
def IndexBufferVec.with_capacity (usage capacity : Nat) : VecState :=
  { len := 0, capacity := capacity, alloc := 0, usage := usage }

/-- `IndexBufferVec::update` (`src/index_buffer_vec.rs`): same algorithm as
`BufferVec::update`, but no reallocation flag is returned. -/
def IndexBufferVec.update (s : VecState) (dataLen : Nat) : VecState :=
  match new_capacity_amortized s.capacity dataLen with
  | some new_capacity =>
      { len := dataLen, capacity := new_capacity, alloc := s.alloc + 1,
        usage := s.usage }
  | none => { s with len := dataLen }

/-- `IndexBufferVec::capacity` (`src/index_buffer_vec.rs`). -/
def IndexBufferVec.capacity (s : VecState) : Nat := s.capacity

/-- Models the external buffer API call `buffer.get(0..len)` (web-glitz,
Rust range-`get` semantics): the sub-range view exists exactly when the
range lies within the buffer, i.e. `len ≤ buffer.len()`; the view's length
is `len`. -/
def bufferGet (bufLen len : Nat) : Option Nat :=
  if len ≤ bufLen then some len else none

/-- States reachable through the public interface: constructed by `new` or
`with_capacity` (arbitrary client-chosen capacity), then mutated only by
`update` of either component. -/
inductive Reachable : VecState → Prop
  | new (usage : Nat) : Reachable (BufferVec.new usage)
  | with_capacity (usage capacity : Nat) :
      Reachable (BufferVec.with_capacity usage capacity)
  | update (s : VecState) (dataLen : Nat) :
      Reachable s → Reachable (BufferVec.update s dataLen).1
  | update_index (s : VecState) (dataLen : Nat) :
      Reachable s → Reachable (IndexBufferVec.update s dataLen)

/-- The doubling loop of `new_capacity_amortized` under machine (`usize`)
arithmetic for a 64-bit word: `new_capacity * 2` wraps modulo `2 ^ 64`
(release-mode Rust semantics; debug mode panics on the same overflow). The
fuel argument bounds loop iterations: `none` means the loop has not finished
within `fuel` iterations. -/
def growLoopWrap : Nat → Nat → Nat → Option Nat
  | 0, _, _ => none
  | fuel + 1, required, v =>
      if v < required then growLoopWrap fuel required (v * 2 % 2 ^ 64)
      else some v

/-- `new_capacity_amortized` under 64-bit machine (`usize`) release
semantics: the branch structure of `src/util.rs` with the doubling loop
replaced by its wrapping counterpart `growLoopWrap`. The outer `Option`
records whether the call returns at all within `fuel` loop iterations
(`none`: still looping); the inner `Option` is the Rust return value. -/
def new_capacity_amortized_wrap (fuel current_capacity required_capacity : Nat) :
    Option (Option Nat) :=
  if current_capacity < required_capacity then
    match growLoopWrap fuel required_capacity
        (if current_capacity = 0 then 2 else current_capacity) with
    | some v => some (some v)
    | none => none
  else
    some none

/-! ## Internal lemmas about the capacity planner -/

lemma growLoop_spec_aux (r : Nat) :
    ∀ d v (hv : 0 < v), r - v ≤ d →
      r ≤ growLoop r v hv ∧ (∃ k, growLoop r v hv = v * 2 ^ k) ∧
        (∀ k, r ≤ v * 2 ^ k → growLoop r v hv ≤ v * 2 ^ k) := by
  intro d
  induction d with
  | zero =>
    intro v hv hle
    have hvr : ¬ v < r := by omega
    rw [growLoop, dif_neg hvr]
    refine ⟨by omega, ⟨0, by simp⟩, ?_⟩
    intro k _
    calc v = v * 2 ^ 0 := by simp
    _ ≤ v * 2 ^ k := Nat.mul_le_mul_left v (Nat.pow_le_pow_right (by omega) (Nat.zero_le k))
  | succ d ih =>
    intro v hv hle
    by_cases h : v < r
    · rw [growLoop, dif_pos h]
      obtain ⟨h1, ⟨k, hk⟩, hmin⟩ := ih (v * 2) (by omega) (by omega)
      refine ⟨h1, ⟨k + 1, by rw [hk]; ring⟩, ?_⟩
      intro j hj
      match j with
      | 0 => simp at hj; omega
      | j + 1 =>
        have hpow : v * 2 ^ (j + 1) = v * 2 * 2 ^ j := by ring
        rw [hpow]
        exact hmin j (by omega)
    · rw [growLoop, dif_neg h]
      refine ⟨by omega, ⟨0, by simp⟩, ?_⟩
      intro k _
      calc v = v * 2 ^ 0 := by simp
      _ ≤ v * 2 ^ k := Nat.mul_le_mul_left v (Nat.pow_le_pow_right (by omega) (Nat.zero_le k))

lemma growLoop_ge (r v : Nat) (hv : 0 < v) : r ≤ growLoop r v hv :=
  (growLoop_spec_aux r r v hv (by omega)).1

lemma growLoop_mem (r v : Nat) (hv : 0 < v) : ∃ k, growLoop r v hv = v * 2 ^ k :=
  (growLoop_spec_aux r r v hv (by omega)).2.1

lemma growLoop_min (r v : Nat) (hv : 0 < v) :
    ∀ k, r ≤ v * 2 ^ k → growLoop r v hv ≤ v * 2 ^ k :=
  (growLoop_spec_aux r r v hv (by omega)).2.2

lemma amortized_spec_of_lt (c r : Nat) (h : c < r) :
    ∃ v, new_capacity_amortized c r = some v ∧ r ≤ v ∧
      (∃ k, v = max c 2 * 2 ^ k) ∧
      ∀ k, r ≤ max c 2 * 2 ^ k → v ≤ max c 2 * 2 ^ k := by
  rcases Nat.lt_or_ge c 2 with hc | hc
  · have hmax : max c 2 = 2 := by omega
    rw [hmax]
    interval_cases c
    · refine ⟨growLoop r 2 (by omega), ?_, growLoop_ge r 2 (by omega),
        growLoop_mem r 2 (by omega), growLoop_min r 2 (by omega)⟩
      unfold new_capacity_amortized
      rw [if_pos h, dif_pos rfl]
    · refine ⟨growLoop r 2 (by omega), ?_, growLoop_ge r 2 (by omega),
        growLoop_mem r 2 (by omega), growLoop_min r 2 (by omega)⟩
      unfold new_capacity_amortized
      rw [if_pos h, dif_neg one_ne_zero]
      conv_lhs => rw [growLoop, dif_pos h]
  · have hmax : max c 2 = c := by omega
    rw [hmax]
    refine ⟨growLoop r c (by omega), ?_, growLoop_ge r c (by omega),
      growLoop_mem r c (by omega), growLoop_min r c (by omega)⟩
    unfold new_capacity_amortized
    rw [if_pos h, dif_neg (by omega)]

lemma amortized_none_iff (c r : Nat) : new_capacity_amortized c r = none ↔ r ≤ c := by
  constructor
  · intro h
    by_contra hlt
    obtain ⟨v, hv, -, -, -⟩ := amortized_spec_of_lt c r (by omega)
    rw [h] at hv
    cases hv
  · intro h
    unfold new_capacity_amortized
    rw [if_neg (by omega)]

lemma amortized_some_facts (c r v : Nat) (h : new_capacity_amortized c r = some v) :
    c < r ∧ r ≤ v ∧ c ≤ v ∧ ∃ k, v = max c 2 * 2 ^ k := by
  have hlt : c < r := by
    by_contra hge
    rw [(amortized_none_iff c r).2 (by omega)] at h
    cases h
  obtain ⟨w, hw, hrw, ⟨k, hk⟩, -⟩ := amortized_spec_of_lt c r hlt
  rw [hw] at h
  injection h with hvw
  subst hvw
  have h1 : 1 ≤ 2 ^ k := Nat.one_le_two_pow
  have h2 : max c 2 * 1 ≤ max c 2 * 2 ^ k := Nat.mul_le_mul_left _ h1
  rw [← hk] at h2
  simp only [Nat.mul_one] at h2
  exact ⟨hlt, hrw, by omega, ⟨k, hk⟩⟩

lemma amortized_eval_4_5 : new_capacity_amortized 4 5 = some 8 := by
  simp [new_capacity_amortized]
  rw [growLoop]
  norm_num
  rw [growLoop]
  norm_num

lemma amortized_eval_10_11 : new_capacity_amortized 10 11 = some 20 := by
  simp [new_capacity_amortized]
  rw [growLoop]
  norm_num
  rw [growLoop]
  norm_num

/-! ## Internal lemmas about the state transitions -/

lemma update_state_facts (s : VecState) (n : Nat) :
    (BufferVec.update s n).1.len = n ∧ n ≤ (BufferVec.update s n).1.capacity ∧
      s.capacity ≤ (BufferVec.update s n).1.capacity ∧
      (BufferVec.update s n).1.usage = s.usage := by
  cases h : new_capacity_amortized s.capacity n with
  | none =>
    have hge : n ≤ s.capacity := (amortized_none_iff _ _).1 h
    simp [BufferVec.update, h]
    omega
  | some v =>
    obtain ⟨hlt, hrv, hcv, -⟩ := amortized_some_facts _ _ _ h
    simp [BufferVec.update, h]
    omega

lemma index_update_eq (s : VecState) (n : Nat) :
    IndexBufferVec.update s n = (BufferVec.update s n).1 := by
  cases h : new_capacity_amortized s.capacity n <;>
    simp [BufferVec.update, IndexBufferVec.update, h]

lemma reachable_len_le (s : VecState) (hs : Reachable s) : s.len ≤ s.capacity := by
  induction hs with
  | new usage => exact Nat.le_refl 0
  | with_capacity usage capacity => exact Nat.zero_le capacity
  | update s n hr ih =>
    obtain ⟨h1, h2, -, -⟩ := update_state_facts s n
    omega
  | update_index s n hr ih =>
    rw [index_update_eq]
    obtain ⟨h1, h2, -, -⟩ := update_state_facts s n
    omega

lemma bufferGet_isSome (b l : Nat) : (bufferGet b l).isSome = true ↔ l ≤ b := by
  unfold bufferGet
  split <;> simp_all

/-! ## Wrap-around behaviour of the doubling loop -/

lemma wrap_cex_invariant (v : Nat) (hv : v = 0 ∨ ∃ k, 1 ≤ k ∧ k ≤ 63 ∧ v = 2 ^ k) :
    (v * 2 % 2 ^ 64 = 0 ∨ ∃ k, 1 ≤ k ∧ k ≤ 63 ∧ v * 2 % 2 ^ 64 = 2 ^ k) ∧
      v < 2 ^ 63 + 1 := by
  rcases hv with hv | ⟨k, hk1, hk63, hkv⟩
  · subst hv
    norm_num
  · subst hkv
    constructor
    · rcases Nat.lt_or_ge k 63 with hlt | hge
      · right
        refine ⟨k + 1, by omega, by omega, ?_⟩
        have hsmall : 2 ^ k * 2 < 2 ^ 64 := by
          have : 2 ^ (k + 1) ≤ 2 ^ 63 := Nat.pow_le_pow_right (by omega) (by omega)
          have h2 : (2 : Nat) ^ 63 < 2 ^ 64 := Nat.pow_lt_pow_right (by omega) (by omega)
          calc 2 ^ k * 2 = 2 ^ (k + 1) := by ring
          _ ≤ 2 ^ 63 := this
          _ < 2 ^ 64 := h2
        rw [Nat.mod_eq_of_lt hsmall]
        ring
      · have hk : k = 63 := by omega
        subst hk
        left
        norm_num
    · have : 2 ^ k ≤ 2 ^ 63 := Nat.pow_le_pow_right (by omega) hk63
      omega

lemma wrap_diverges_aux :
    ∀ fuel v, (v = 0 ∨ ∃ k, 1 ≤ k ∧ k ≤ 63 ∧ v = 2 ^ k) →
      growLoopWrap fuel (2 ^ 63 + 1) v = none := by
  intro fuel
  induction fuel with
  | zero => intro v _; rfl
  | succ f ih =>
    intro v hv
    obtain ⟨hnext, hlt⟩ := wrap_cex_invariant v hv
    rw [growLoopWrap, if_pos hlt]
    exact ih _ hnext

lemma growLoopWrap_agrees (r : Nat) (hr : r ≤ 2 ^ 63) :
    ∀ d v (hv : 0 < v), r - v ≤ d →
      growLoopWrap (d + 1) r v = some (growLoop r v hv) := by
  intro d
  induction d with
  | zero =>
    intro v hv hle
    have hge : ¬ v < r := by omega
    rw [growLoopWrap, if_neg hge, growLoop, dif_neg hge]
  | succ d ih =>
    intro v hv hle
    by_cases hlt : v < r
    · rw [growLoopWrap, if_pos hlt]
      have e63 : (2 : Nat) ^ 63 = 9223372036854775808 := by norm_num
      have e64 : (2 : Nat) ^ 64 = 18446744073709551616 := by norm_num
      have hsmall : v * 2 < 2 ^ 64 := by omega
      rw [Nat.mod_eq_of_lt hsmall, ih (v * 2) (by omega) (by omega)]
      conv_rhs => rw [growLoop, dif_pos hlt]
    · rw [growLoopWrap, if_neg hlt, growLoop, dif_neg hlt]

lemma amortized_wrap_agrees (c r : Nat) (h : c < r) (hr : r ≤ 2 ^ 63) :
    ∃ fuel, new_capacity_amortized_wrap fuel c r = some (new_capacity_amortized c r) := by
  by_cases hc : c = 0
  · subst hc
    refine ⟨r - 2 + 1, ?_⟩
    unfold new_capacity_amortized_wrap new_capacity_amortized
    rw [if_pos h, if_pos h, dif_pos rfl]
    norm_num
    rw [growLoopWrap_agrees r hr (r - 2) 2 (by omega) (by omega)]
  · refine ⟨r - c + 1, ?_⟩
    unfold new_capacity_amortized_wrap new_capacity_amortized
    rw [if_pos h, if_pos h, dif_neg hc, if_neg hc]
    rw [growLoopWrap_agrees r hr (r - c) c (Nat.pos_of_ne_zero hc) (by omega)]

lemma growLoopWrap_form (r : Nat) :
    ∀ fuel v w, v < 2 ^ 64 → growLoopWrap fuel r v = some w →
      r ≤ w ∧ ∃ k, w = v * 2 ^ k % 2 ^ 64 ∧ (v < r → 1 ≤ k) := by
  intro fuel
  induction fuel with
  | zero =>
    intro v w _ h
    simp [growLoopWrap] at h
  | succ f ih =>
    intro v w hv h
    rw [growLoopWrap] at h
    by_cases hlt : v < r
    · rw [if_pos hlt] at h
      have hm : v * 2 % 2 ^ 64 < 2 ^ 64 := Nat.mod_lt _ (by norm_num)
      obtain ⟨hw, k, hk, -⟩ := ih (v * 2 % 2 ^ 64) w hm h
      refine ⟨hw, k + 1, ?_, fun _ => by omega⟩
      rw [hk, Nat.mod_mul_mod]
      congr 1
      ring
    · rw [if_neg hlt] at h
      injection h with h
      subst h
      refine ⟨by omega, 0, ?_, fun hc => absurd hc hlt⟩
      rw [pow_zero, Nat.mul_one, Nat.mod_eq_of_lt hv]

lemma amortized_wrap_form (c r v fuel : Nat) (hc : c < 2 ^ 64)
    (h : new_capacity_amortized_wrap fuel c r = some (some v)) :
    r ≤ v ∧ ∃ k, v = max c 2 * 2 ^ k % 2 ^ 64 := by
  unfold new_capacity_amortized_wrap at h
  by_cases hcr : c < r
  · rw [if_pos hcr] at h
    cases hg : growLoopWrap fuel r (if c = 0 then 2 else c) with
    | none => rw [hg] at h; cases h
    | some w =>
      rw [hg] at h
      injection h with h
      injection h with h
      subst h
      by_cases hc0 : c = 0
      · subst hc0
        simp only [if_pos rfl] at hg
        obtain ⟨hrv, k, hk, -⟩ := growLoopWrap_form r fuel 2 w (by norm_num) hg
        exact ⟨hrv, k, by simpa using hk⟩
      · rcases Nat.lt_or_ge c 2 with hc2 | hc2
        · have hc1 : c = 1 := by omega
          subst hc1
          rw [if_neg hc0] at hg
          obtain ⟨hrv, k, hk, hpos⟩ := growLoopWrap_form r fuel 1 w (by norm_num) hg
          have hk1 : 1 ≤ k := hpos hcr
          refine ⟨hrv, k - 1, ?_⟩
          rw [hk]
          congr 1
          have hmax : max 1 2 = 2 := by omega
          rw [hmax]
          have hpow : (2 : Nat) ^ k = 2 * 2 ^ (k - 1) := by
            conv_lhs => rw [show k = 1 + (k - 1) by omega]
            rw [pow_add, pow_one]
          rw [hpow]
          ring
        · rw [if_neg hc0] at hg
          obtain ⟨hrv, k, hk, -⟩ := growLoopWrap_form r fuel c w hc hg
          have hmax : max c 2 = c := by omega
          exact ⟨hrv, k, by rw [hmax, hk]⟩
  · rw [if_neg hcr] at h
    injection h with h
    cases h

lemma amortized_wrap_eval_4_5 : new_capacity_amortized_wrap 2 4 5 = some (some 8) := rfl

lemma amortized_wrap_eval_10_11 :
    new_capacity_amortized_wrap 2 10 11 = some (some 20) := rfl

/-! ## Claim theorems -/

/-- C1 counterexample: the claim "for every `current_capacity <
required_capacity` the function returns `Some(minimal sufficient doubling)`"
fails on the machine. At `(0, 2 ^ 63 + 1)` — a valid 64-bit `usize` input
with `current < required` — the call never returns a value at all, for any
number of loop iterations: the wrapping loop reaches 0 and stays there
(debug builds panic on the same overflow). -/
theorem new_capacity_amortized_grows_cex :
    (0 : Nat) < 2 ^ 63 + 1 ∧
      ¬ ∃ fuel w, new_capacity_amortized_wrap fuel 0 (2 ^ 63 + 1) = some w := by
  refine ⟨by norm_num, ?_⟩
  rintro ⟨fuel, w, h⟩
  have hd := wrap_diverges_aux fuel 2 (Or.inr ⟨1, Nat.le_refl 1, by omega, rfl⟩)
  rw [new_capacity_amortized_wrap, if_pos (by norm_num)] at h
  norm_num at h hd
  rw [hd] at h
  simp at h

/-- C1 (amended): for `current_capacity < required_capacity` with
`required_capacity ≤ 2 ^ 63` (so the 64-bit doubling never overflows), the
machine loop terminates, agrees with the mathematical planner, and returns
`Some v` where `v` is the smallest element of the doubling sequence
`max(current_capacity, 2) * 2 ^ k` that is `≥ required_capacity`; for larger
`required_capacity` the call may never return (see the counterexample). -/
theorem new_capacity_amortized_grows (c r : Nat) (h : c < r) (hr : r ≤ 2 ^ 63) :
    ∃ fuel v, new_capacity_amortized_wrap fuel c r = some (some v) ∧
      new_capacity_amortized c r = some v ∧ r ≤ v ∧
      (∃ k, v = max c 2 * 2 ^ k) ∧
      ∀ k, r ≤ max c 2 * 2 ^ k → v ≤ max c 2 * 2 ^ k := by
  obtain ⟨v, hv, hrv, hmem, hmin⟩ := amortized_spec_of_lt c r h
  obtain ⟨fuel, hf⟩ := amortized_wrap_agrees c r h hr
  exact ⟨fuel, v, by rw [hf, hv], hv, hrv, hmem, hmin⟩

/-- Witness for C1 (amended) at `(current_capacity, required_capacity) =
(4, 5)`, where both the machine loop and the mathematical planner yield
`Some 8` (two loop iterations suffice). -/
theorem new_capacity_amortized_grows_witness :
    4 < 5 ∧ 5 ≤ 2 ^ 63 ∧ new_capacity_amortized 4 5 = some 8 ∧
      new_capacity_amortized_wrap 2 4 5 = some (some 8) ∧
      (∃ fuel v, new_capacity_amortized_wrap fuel 4 5 = some (some v) ∧
        new_capacity_amortized 4 5 = some v ∧ 5 ≤ v ∧
        (∃ k, v = max 4 2 * 2 ^ k) ∧
        ∀ k, 5 ≤ max 4 2 * 2 ^ k → v ≤ max 4 2 * 2 ^ k) :=
  ⟨by omega, by norm_num, amortized_eval_4_5, amortized_wrap_eval_4_5,
    new_capacity_amortized_grows 4 5 (by omega) (by norm_num)⟩

/-- C2: for `current_capacity ≥ required_capacity` the planner reports no
growth (`None`); in particular capacity is never reduced, including for
`(0, 0)`. -/
theorem new_capacity_amortized_no_growth (c r : Nat) (h : r ≤ c) :
    new_capacity_amortized c r = none :=
  (amortized_none_iff c r).2 h

/-- Witness for C2 at the edge case `(0, 0)`. -/
theorem new_capacity_amortized_no_growth_witness :
    0 ≤ 0 ∧ new_capacity_amortized 0 0 = none :=
  ⟨Nat.le_refl 0, new_capacity_amortized_no_growth 0 0 (Nat.le_refl 0)⟩

/-- C3 counterexample: the claim "every capacity value produced by growth at a
reachable current capacity is a power of two from the sequence seeded at 2"
fails. The state created by `with_capacity` with client-chosen capacity 10 is
reachable, growth for 11 required elements yields 20, and 20 is not in the
sequence 2, 4, 8, ... (`2 ^ (k + 1)`). -/
theorem growth_pow2_seeded_cex :
    Reachable (BufferVec.with_capacity 0 10) ∧
      new_capacity_amortized (BufferVec.with_capacity 0 10).capacity 11 = some 20 ∧
      ¬ ∃ k, 20 = 2 ^ (k + 1) := by
  refine ⟨Reachable.with_capacity 0 10, amortized_eval_10_11, ?_⟩
  rintro ⟨k, hk⟩
  rcases Nat.lt_or_ge k 4 with hlt | hge
  · have h2 : 2 ^ (k + 1) ≤ 2 ^ 4 := Nat.pow_le_pow_right (by omega) (by omega)
    norm_num at h2
    omega
  · have h2 : 2 ^ 5 ≤ 2 ^ (k + 1) := Nat.pow_le_pow_right (by omega) (by omega)
    norm_num at h2
    omega

/-- C3 (amended): every capacity value the machine planner actually returns
at a reachable current capacity (below `2 ^ 64`, as any `usize` is) is at
least the required capacity and is `max(current_capacity, 2)` doubled some
number of times in `usize` arithmetic, i.e. of the form
`max(current_capacity, 2) * 2 ^ k % 2 ^ 64` — a power of two from the
sequence seeded at 2 only when the current capacity is 0, 1 or itself such a
power and no wrap occurs, not for arbitrary `with_capacity` starts. -/
theorem growth_value_form (s : VecState) (_hs : Reachable s) (n v fuel : Nat)
    (hcap : s.capacity < 2 ^ 64)
    (h : new_capacity_amortized_wrap fuel s.capacity n = some (some v)) :
    n ≤ v ∧ ∃ k, v = max s.capacity 2 * 2 ^ k % 2 ^ 64 :=
  amortized_wrap_form s.capacity n v fuel hcap h

/-- Witness for C3 (amended) at the reachable `with_capacity 10` state with
11 required elements, where the machine planner returns
`20 = max 10 2 * 2 ^ 1 % 2 ^ 64`. -/
theorem growth_value_form_witness :
    Reachable (BufferVec.with_capacity 0 10) ∧
      (BufferVec.with_capacity 0 10).capacity < 2 ^ 64 ∧
      new_capacity_amortized_wrap 2 (BufferVec.with_capacity 0 10).capacity 11 =
        some (some 20) ∧
      (11 ≤ 20 ∧
        ∃ k, (20 : Nat) = max (BufferVec.with_capacity 0 10).capacity 2 * 2 ^ k % 2 ^ 64) :=
  ⟨Reachable.with_capacity 0 10, by decide, amortized_wrap_eval_10_11,
    growth_value_form (BufferVec.with_capacity 0 10) (Reachable.with_capacity 0 10)
      11 20 2 (by decide) amortized_wrap_eval_10_11⟩

/-- C4: after `update` with `n` elements, for both components: `len = n`,
`len ≤ capacity`, and the capacity never shrinks across the update. -/
theorem update_len_capacity (s : VecState) (n : Nat) :
    (BufferVec.update s n).1.len = n ∧
      (BufferVec.update s n).1.len ≤ BufferVec.capacity (BufferVec.update s n).1 ∧
      BufferVec.capacity s ≤ BufferVec.capacity (BufferVec.update s n).1 ∧
      (IndexBufferVec.update s n).len = n ∧
      (IndexBufferVec.update s n).len ≤ IndexBufferVec.capacity (IndexBufferVec.update s n) ∧
      IndexBufferVec.capacity s ≤ IndexBufferVec.capacity (IndexBufferVec.update s n) := by
  obtain ⟨h1, h2, h3, -⟩ := update_state_facts s n
  rw [BufferVec.capacity, BufferVec.capacity, IndexBufferVec.capacity,
    IndexBufferVec.capacity, index_update_eq]
  omega

/-- C5: `BufferVec::update` returns `true` exactly when the planner returned
`Some` (equivalently, exactly when the old capacity was smaller than the data
length), and the buffer handle is replaced (fresh allocation identity)
exactly in that case. -/
theorem update_realloc_flag (s : VecState) (n : Nat) :
    ((BufferVec.update s n).2 = (new_capacity_amortized (BufferVec.capacity s) n).isSome) ∧
      ((BufferVec.update s n).2 = true ↔ BufferVec.capacity s < n) ∧
      ((BufferVec.update s n).1.alloc ≠ s.alloc ↔ (BufferVec.update s n).2 = true) := by
  rw [BufferVec.capacity]
  cases h : new_capacity_amortized s.capacity n with
  | none =>
    have hge : n ≤ s.capacity := (amortized_none_iff _ _).1 h
    simp [BufferVec.update, h]
    omega
  | some v =>
    have hlt := (amortized_some_facts _ _ _ h).1
    simp [BufferVec.update, h]
    omega

/-- C6: updating a second time with data of the same length directly after
`update` changes nothing: same `len`, same capacity, same allocation, and the
second `BufferVec::update` returns `false`. -/
theorem update_idempotent (s : VecState) (n : Nat) :
    BufferVec.update (BufferVec.update s n).1 n = ((BufferVec.update s n).1, false) ∧
      IndexBufferVec.update (IndexBufferVec.update s n) n = IndexBufferVec.update s n := by
  cases h : new_capacity_amortized s.capacity n with
  | none =>
    simp [BufferVec.update, IndexBufferVec.update, h]
  | some v =>
    have hv := amortized_some_facts _ _ _ h
    have h2 : new_capacity_amortized v n = none := (amortized_none_iff _ _).2 hv.2.1
    simp [BufferVec.update, IndexBufferVec.update, h, h2]

/-- C7: `IndexBufferVec` implements the identical algorithm and state
transition as `BufferVec`: the constructors agree, every single `update`
agrees with the state part of `BufferVec::update`, and hence any sequence of
updates evolves the state identically; the only interface difference is the
missing reallocation flag. -/
theorem index_refines_buffer :
    (∀ u, IndexBufferVec.new u = BufferVec.new u) ∧
      (∀ u c, IndexBufferVec.with_capacity u c = BufferVec.with_capacity u c) ∧
      (∀ s n, IndexBufferVec.update s n = (BufferVec.update s n).1) ∧
      (∀ (s : VecState) (ns : List Nat),
        List.foldl IndexBufferVec.update s ns =
          List.foldl (fun t n => (BufferVec.update t n).1) s ns) := by
  refine ⟨fun u => rfl, fun u c => rfl, index_update_eq, ?_⟩
  intro s ns
  induction ns generalizing s with
  | nil => rfl
  | cons m ms ih => simp [List.foldl, index_update_eq, ih]

/-- C8: `new` yields capacity 0 and length 0, `with_capacity c` yields
capacity exactly `c` (not rounded) and length 0, and after `with_capacity 10`
an update with 3 elements does not reallocate and sets `len = 3` — for both
components and any usage hint. -/
theorem constructor_specs (u : Nat) :
    BufferVec.capacity (BufferVec.new u) = 0 ∧ (BufferVec.new u).len = 0 ∧
      IndexBufferVec.capacity (IndexBufferVec.new u) = 0 ∧ (IndexBufferVec.new u).len = 0 ∧
      (∀ c, BufferVec.capacity (BufferVec.with_capacity u c) = c ∧
        (BufferVec.with_capacity u c).len = 0) ∧
      (∀ c, IndexBufferVec.capacity (IndexBufferVec.with_capacity u c) = c ∧
        (IndexBufferVec.with_capacity u c).len = 0) ∧
      (BufferVec.update (BufferVec.with_capacity u 10) 3).2 = false ∧
      (BufferVec.update (BufferVec.with_capacity u 10) 3).1.len = 3 ∧
      (BufferVec.update (BufferVec.with_capacity u 10) 3).1.alloc =
        (BufferVec.with_capacity u 10).alloc ∧
      (IndexBufferVec.update (IndexBufferVec.with_capacity u 10) 3).len = 3 ∧
      (IndexBufferVec.update (IndexBufferVec.with_capacity u 10) 3).alloc =
        (IndexBufferVec.with_capacity u 10).alloc :=
  ⟨rfl, rfl, rfl, rfl, fun _ => ⟨rfl, rfl⟩, fun _ => ⟨rfl, rfl⟩,
    rfl, rfl, rfl, rfl, rfl⟩

/-- C9: the termination claim fails on the code. Under machine (`usize`)
arithmetic the doubling loop wraps: for `current_capacity = 0` (seed 2) and
`required_capacity = 2 ^ 63 + 1` — a valid 64-bit `usize` — the loop reaches
0 after 63 doublings and then never meets the exit condition, for any number
of iterations. (In debug builds the same input panics on overflow instead.) -/
theorem growth_loop_wrap_diverges :
    2 ^ 63 + 1 ≤ 2 ^ 64 - 1 ∧
      ∀ fuel, growLoopWrap fuel (2 ^ 63 + 1) 2 = none :=
  ⟨by norm_num,
    fun fuel => wrap_diverges_aux fuel 2 (Or.inr ⟨1, Nat.le_refl 1, by omega, rfl⟩)⟩

/-- C10: the `buffer.get(0..len).unwrap()` calls never panic: directly after
the capacity-planning step of `update` the new length is within the (possibly
reallocated) buffer, and in `as_buffer_view` the stored length is within the
buffer for every reachable state — for both components. -/
theorem get_in_bounds (s : VecState) (hs : Reachable s) (n : Nat) :
    (bufferGet (BufferVec.update s n).1.capacity (BufferVec.update s n).1.len).isSome = true ∧
      (bufferGet (IndexBufferVec.update s n).capacity
        (IndexBufferVec.update s n).len).isSome = true ∧
      (bufferGet s.capacity s.len).isSome = true := by
  obtain ⟨h1, h2, -, -⟩ := update_state_facts s n
  refine ⟨(bufferGet_isSome _ _).2 (by omega), ?_,
    (bufferGet_isSome _ _).2 (reachable_len_le s hs)⟩
  rw [index_update_eq]
  exact (bufferGet_isSome _ _).2 (by omega)

/-- Witness for C10 at the freshly created vector updated with 3 elements. -/
theorem get_in_bounds_witness :
    Reachable (BufferVec.new 0) ∧
      (bufferGet (BufferVec.update (BufferVec.new 0) 3).1.capacity
        (BufferVec.update (BufferVec.new 0) 3).1.len).isSome = true ∧
      (bufferGet (IndexBufferVec.update (BufferVec.new 0) 3).capacity
        (IndexBufferVec.update (BufferVec.new 0) 3).len).isSome = true ∧
      (bufferGet (BufferVec.new 0).capacity (BufferVec.new 0).len).isSome = true :=
  ⟨Reachable.new 0, get_in_bounds (BufferVec.new 0) (Reachable.new 0) 3⟩

end WebGlitzBufferVec
